import Mathlib

/-!
Verification development for the tun2ostrich proxy core.

The Rust sources are shallowly embedded as Lean definitions:

* `src/ostrich/src/app/outbound/manager.rs` — outbound handler catalog
  (`OutboundManager::load_handlers`, `OutboundManager::new`,
  `default_handler`, `get`);
* `src/ostrich/src/app/inbound/manager.rs` — inbound handler construction
  including the four-pass composite (amux / chain) build of
  `InboundManager::new`;
* `src/ostrich/src/lib.rs` — the process-wide instance registry
  (`RUNTIME_MANAGER`), `start`, `is_running`, `test_config`,
  `new_runtime`;
* `src/ostrich-bin/src/main.rs` — CLI argument defaults and the `-T` /
  `-t` modes of `main`;
* `src/ostrich/src/proxy/trojan/outbound/tls.rs` — `make_config`.

Machine integers are modelled as `Nat`; byte blobs as `List Nat`;
`indexmap::IndexMap` as an insertion-ordered association list;
fallible Rust functions as `Except String _`.  External library calls
(protobuf decoding, the bundled webpki trust-anchor constant, tokio, the
actual sockets) are parameters of the embedding; everything else follows
the source line by line.
-/

/-! ## Insertion-ordered maps (embedding of `indexmap::IndexMap`; also used
for `std::collections::HashMap`, whose get/insert semantics coincide) -/

/-- `IndexMap::contains_key`. -/
def imContains [DecidableEq κ] (m : List (κ × α)) (k : κ) : Bool :=
  m.any (fun p => p.1 = k)

/-- `IndexMap::get` (by key). -/
def imGet [DecidableEq κ] (m : List (κ × α)) (k : κ) : Option α :=
  (m.find? (fun p => p.1 = k)).map (·.2)

/-- `IndexMap::insert`: replace in place when the key is present,
otherwise append at the end (insertion order preserved). -/
def imInsert [DecidableEq κ] (m : List (κ × α)) (k : κ) (v : α) : List (κ × α) :=
  match m with
  | [] => [(k, v)]
  | p :: rest => if p.1 = k then (k, v) :: rest else p :: imInsert rest k v

/-- `IndexMap::remove` (observed only through key membership here). -/
def imRemove [DecidableEq κ] (m : List (κ × α)) (k : κ) : List (κ × α) :=
  m.filter (fun p => ¬ p.1 = k)

/-! ## Configuration records (`config::Outbound`, trojan settings) -/

/-- `config::Outbound`: tag, protocol and the raw settings blob. -/
structure Outbound where
  tag : String
  protocol : String
  settings : List Nat
deriving DecidableEq

/-- `config::TrojanOutboundSettings` (the decoded protobuf record). -/
structure TrojanOutboundSettings where
  address : String
  port : Nat
  password : String
  server_name : String
deriving DecidableEq

/-- A built outbound handler.  `id` is the allocation identity of the
`Arc` produced by `HandlerBuilder::build` (two catalog entries share an
underlying instance iff their `id`s agree); `tag`, `protocol` and
`settings` record the config entry the instance was built from. -/
structure OHandler where
  id : Nat
  tag : String
  protocol : String
  settings : List Nat
deriving DecidableEq

/-- `HandlerCacheEntry` from `outbound/manager.rs`. -/
structure HandlerCacheEntry where
  tag : String
  handler : OHandler
  protocol : String
  settings : List Nat
deriving DecidableEq

/-- The mutable state threaded through `OutboundManager::load_handlers`:
the handler map, the default handler slot and a fresh-allocation
counter standing for heap identity of newly built handlers. -/
structure LoadState where
  handlers : List (String × OHandler)
  default_handler : Option String
  nextId : Nat
deriving DecidableEq

/-- The cache scan of `load_handlers`: find an entry with identical
protocol and identical settings bytes. -/
def cacheFind (cache : List HandlerCacheEntry) (protocol : String)
    (settings : List Nat) : Option HandlerCacheEntry :=
  cache.find? (fun e => e.protocol = protocol ∧ e.settings = settings)

/-- Whether `load_handlers` has a build arm for this protocol
(`"direct"` and `"trojan"`; every other protocol hits the `_ => continue`
arm). -/
def supportedOutboundProtocol (protocol : String) : Bool :=
  protocol = "direct" ∨ protocol = "trojan"

/-- One iteration of the `'loop1` body of `load_handlers` plus the tail
of the loop, embedded as structural recursion over the remaining
outbounds.  `parse` stands for
`config::TrojanOutboundSettings::parse_from_bytes`. -/
def loadGo (parse : List Nat → Option TrojanOutboundSettings) :
    List Outbound → LoadState → List HandlerCacheEntry → Except String LoadState
  | [], st, _ => .ok st
  | ob :: rest, st, cache =>
    -- let tag = String::from(&outbound.tag); if handlers.contains_key(&tag) { continue; }
    if imContains st.handlers ob.tag then
      loadGo parse rest st cache
    else
      -- if default_handler.is_none() { default_handler.replace(..); }
      let st1 : LoadState :=
        if st.default_handler.isNone then
          { st with default_handler := some ob.tag }
        else st
      -- Check whether an identical one already exist.
      match cacheFind cache ob.protocol ob.settings with
      | some e =>
        loadGo parse rest
          { st1 with handlers := imInsert st1.handlers ob.tag e.handler } cache
      | none =>
        if ob.protocol = "direct" then
          let h : OHandler :=
            { id := st1.nextId, tag := ob.tag, protocol := ob.protocol,
              settings := ob.settings }
          loadGo parse rest
            { handlers := imInsert st1.handlers ob.tag h,
              default_handler := st1.default_handler,
              nextId := st1.nextId + 1 }
            (cache ++ [{ tag := ob.tag, handler := h, protocol := ob.protocol,
                         settings := ob.settings }])
        else if ob.protocol = "trojan" then
          match parse ob.settings with
          | none =>
            .error ("invalid [" ++ ob.tag ++ "] outbound settings")
          | some _ =>
            let h : OHandler :=
              { id := st1.nextId, tag := ob.tag, protocol := ob.protocol,
                settings := ob.settings }
            loadGo parse rest
              { handlers := imInsert st1.handlers ob.tag h,
                default_handler := st1.default_handler,
                nextId := st1.nextId + 1 }
              (cache ++ [{ tag := ob.tag, handler := h, protocol := ob.protocol,
                           settings := ob.settings }])
        else
          -- _ => continue
          loadGo parse rest st1 cache

/-- `OutboundManager::load_handlers`: the cache starts empty on every
call (`let mut cached_handlers = Vec::new()`). -/
def load_handlers (parse : List Nat → Option TrojanOutboundSettings)
    (outbounds : List Outbound) (st : LoadState) : Except String LoadState :=
  loadGo parse outbounds st []

/-- The fields of `OutboundManager` observable through its methods. -/
structure OutboundManager where
  handlers : List (String × OHandler)
  default_handler : Option String
deriving DecidableEq

/-- The `for _i in 0..4` loop of `OutboundManager::new`. -/
def loadPasses (parse : List Nat → Option TrojanOutboundSettings)
    (outbounds : List Outbound) : Nat → LoadState → Except String LoadState
  | 0, st => .ok st
  | n + 1, st =>
    match load_handlers parse outbounds st with
    | .error e => .error e
    | .ok st1 => loadPasses parse outbounds n st1

/-- `OutboundManager::new`. -/
def OutboundManager.new (parse : List Nat → Option TrojanOutboundSettings)
    (outbounds : List Outbound) : Except String OutboundManager :=
  match loadPasses parse outbounds 4 { handlers := [], default_handler := none, nextId := 0 } with
  | .error e => .error e
  | .ok st => .ok { handlers := st.handlers, default_handler := st.default_handler }

/-- `OutboundManager::get`. -/
def OutboundManager.get (m : OutboundManager) (tag : String) : Option OHandler :=
  imGet m.handlers tag

/-- `OutboundManager::default_handler`. -/
def OutboundManager.defaultHandler (m : OutboundManager) : Option String :=
  m.default_handler

/-- The `(protocol, settings-blob)` pair of a built handler. -/
def pairOf (h : OHandler) : String × List Nat := (h.protocol, h.settings)

/-- Number of distinct underlying instances among the catalog values. -/
def distinctInstances (m : OutboundManager) : Nat :=
  ((m.handlers.map (fun p => p.2.id)).dedup).length

/-- Number of distinct `(protocol, settings)` pairs among the catalog
values. -/
def distinctPairsInCatalog (m : OutboundManager) : Nat :=
  ((m.handlers.map (fun p => pairOf p.2)).dedup).length

/-- Number of distinct `(protocol, settings)` pairs among a list of
configured outbounds. -/
def distinctPairsOfOutbounds (outbounds : List Outbound) : Nat :=
  ((outbounds.map (fun ob => (ob.protocol, ob.settings))).dedup).length

/-- The state `OutboundManager::new` starts `load_handlers` from. -/
def initLoadState : LoadState :=
  { handlers := [], default_handler := none, nextId := 0 }

/-! ## Inbound manager (`src/ostrich/src/app/inbound/manager.rs`)

Embedded for the Linux build with the inbound protocol features of the
spec enabled (socks, http, shadowsocks, trojan, ws, quic, tls, amux,
chain, tun); the `inbound-cat` feature is off.  The tun bring-up
shell-outs inside the `"socks"` arm are external side effects with no
influence on the constructed state and are not modelled. -/

/-- `config::Inbound`. -/
structure Inbound where
  tag : String
  protocol : String
  address : String
  port : Nat
  settings : List Nat
deriving DecidableEq

/-- `config::ShadowsocksInboundSettings`. -/
structure ShadowsocksInboundSettings where
  method : String
  password : String
deriving DecidableEq

/-- `config::TrojanInboundSettings`. -/
structure TrojanInboundSettings where
  passwords : List String
deriving DecidableEq

/-- `config::WebSocketInboundSettings`. -/
structure WebSocketInboundSettings where
  path : String
deriving DecidableEq

/-- `config::QuicInboundSettings`. -/
structure QuicInboundSettings where
  certificate : String
  certificate_key : String
  alpn : List String
deriving DecidableEq

/-- `config::TlsInboundSettings`. -/
structure TlsInboundSettings where
  certificate : String
  certificate_key : String
deriving DecidableEq

/-- `config::TunInboundSettings` (only the `auto` field is read). -/
structure TunInboundSettings where
  auto : Bool
deriving DecidableEq

/-- The external decoding and handler-constructor calls of
`InboundManager::new`: protobuf `parse_from_bytes` for each settings
type (`none` = decode error) and the fallible
`quic::inbound::DatagramHandler::new` / `tls::inbound::StreamHandler::new`
constructors.  For amux and chain only the `actors` tag list of the
decoded settings is read. -/
structure InboundParseEnv where
  shadowsocks : List Nat → Option ShadowsocksInboundSettings
  trojan : List Nat → Option TrojanInboundSettings
  ws : List Nat → Option WebSocketInboundSettings
  quic : List Nat → Option QuicInboundSettings
  quicNew : QuicInboundSettings → Option Unit
  tls : List Nat → Option TlsInboundSettings
  tlsNew : TlsInboundSettings → Option Unit
  amux : List Nat → Option (List String)
  chain : List Nat → Option (List String)
  tun : List Nat → Option TunInboundSettings

/-- An inbound handler (`proxy::inbound::Handler::new(tag, stream,
datagram)`): which capabilities are populated, and for composites the
actor handlers captured at construction time. -/
inductive IHandler : Type where
  | mk (tag : String) (hasStream : Bool) (hasDatagram : Bool)
       (actors : List IHandler) : IHandler

/-- `Handler::stream().is_ok()`. -/
def IHandler.hasStream : IHandler → Bool
  | .mk _ s _ _ => s

/-- `Handler::datagram().is_ok()`. -/
def IHandler.hasDatagram : IHandler → Bool
  | .mk _ _ d _ => d

/-- The first `for inbound in inbounds.iter()` loop of
`InboundManager::new`: construction of the non-composite handlers. -/
def buildSimpleInbounds (env : InboundParseEnv) :
    List Inbound → List (String × IHandler) → Except String (List (String × IHandler))
  | [], m => .ok m
  | ib :: rest, m =>
    if ib.protocol = "socks" then
      buildSimpleInbounds env rest (imInsert m ib.tag (.mk ib.tag true true []))
    else if ib.protocol = "http" then
      buildSimpleInbounds env rest (imInsert m ib.tag (.mk ib.tag true false []))
    else if ib.protocol = "shadowsocks" then
      match env.shadowsocks ib.settings with
      | none => .error ("invalid [" ++ ib.tag ++ "] inbound settings")
      | some _ => buildSimpleInbounds env rest (imInsert m ib.tag (.mk ib.tag true true []))
    else if ib.protocol = "trojan" then
      match env.trojan ib.settings with
      | none => .error ("invalid [" ++ ib.tag ++ "] inbound settings")
      | some _ => buildSimpleInbounds env rest (imInsert m ib.tag (.mk ib.tag true false []))
    else if ib.protocol = "ws" then
      match env.ws ib.settings with
      | none => .error ("invalid [" ++ ib.tag ++ "] inbound settings")
      | some _ => buildSimpleInbounds env rest (imInsert m ib.tag (.mk ib.tag true false []))
    else if ib.protocol = "quic" then
      match env.quic ib.settings with
      | none => .error ("invalid [" ++ ib.tag ++ "] inbound settings")
      | some s =>
        match env.quicNew s with
        | none => .error ("quic handler init failed for [" ++ ib.tag ++ "]")
        | some _ => buildSimpleInbounds env rest (imInsert m ib.tag (.mk ib.tag false true []))
    else if ib.protocol = "tls" then
      match env.tls ib.settings with
      | none => .error ("invalid [" ++ ib.tag ++ "] inbound settings")
      | some s =>
        match env.tlsNew s with
        | none => .error ("tls handler init failed for [" ++ ib.tag ++ "]")
        | some _ => buildSimpleInbounds env rest (imInsert m ib.tag (.mk ib.tag true false []))
    else
      -- _ => ()
      buildSimpleInbounds env rest m

/-- `for actor in settings.actors.iter() { if let Some(a) =
handlers.get(actor) { actors.push(a.clone()); } }` -/
def collectActors (m : List (String × IHandler)) (actorTags : List String) :
    List IHandler :=
  actorTags.filterMap (fun t => imGet m t)

/-- The body of one composite pass (the inner `for inbound in
inbounds.iter()` of the `for _i in 0..4` loop): amux and chain handlers
are (re)built from whatever actors are currently present and inserted,
replacing any handler previously held under the tag. -/
def buildCompositesPass (env : InboundParseEnv) :
    List Inbound → List (String × IHandler) → Except String (List (String × IHandler))
  | [], m => .ok m
  | ib :: rest, m =>
    if ib.protocol = "amux" then
      match env.amux ib.settings with
      | none => .error ("invalid [" ++ ib.tag ++ "] inbound settings")
      | some actorTags =>
        let actors := collectActors m actorTags
        buildCompositesPass env rest (imInsert m ib.tag (.mk ib.tag true false actors))
    else if ib.protocol = "chain" then
      match env.chain ib.settings with
      | none => .error ("invalid [" ++ ib.tag ++ "] inbound settings")
      | some actorTags =>
        match collectActors m actorTags with
        | [] =>
          -- if actors.is_empty() { continue; }
          buildCompositesPass env rest m
        | a :: rest2 =>
          buildCompositesPass env rest
            (imInsert m ib.tag (.mk ib.tag a.hasStream a.hasDatagram (a :: rest2)))
    else
      buildCompositesPass env rest m

/-- The `for _i in 0..4` composite loop. -/
def buildCompositesPasses (env : InboundParseEnv) (inbounds : List Inbound) :
    Nat → List (String × IHandler) → Except String (List (String × IHandler))
  | 0, m => .ok m
  | n + 1, m =>
    match buildCompositesPass env inbounds m with
    | .error e => .error e
    | .ok m1 => buildCompositesPasses env inbounds n m1

/-- A `NetworkInboundListener` as far as configuration is concerned. -/
structure NetworkInboundListener where
  address : String
  port : Nat
  handler : IHandler

/-- The observable construction result of `InboundManager::new`. -/
structure InboundManagerState where
  handlers : List (String × IHandler)
  network_listeners : List (String × NetworkInboundListener)
  tun_listener_tag : Option String
  tun_auto : Bool

/-- The final listener loop of `InboundManager::new`. -/
def buildListeners (env : InboundParseEnv) :
    List Inbound → List (String × IHandler) →
    List (String × NetworkInboundListener) → Option String → Bool →
    Except String (List (String × NetworkInboundListener) × Option String × Bool)
  | [], _, ls, tun, auto => .ok (ls, tun, auto)
  | ib :: rest, m, ls, tun, auto =>
    if ib.protocol = "tun" then
      match env.tun ib.settings with
      | none => .error ("invalid [" ++ ib.tag ++ "] inbound settings")
      | some s => buildListeners env rest m ls (some ib.tag) s.auto
    else
      if ib.port ≠ 0 then
        match imGet m ib.tag with
        | some h =>
          buildListeners env rest m
            (imInsert ls ib.tag
              { address := ib.address, port := ib.port, handler := h })
            tun auto
        | none => buildListeners env rest m ls tun auto
      else buildListeners env rest m ls tun auto

/-- `InboundManager::new`. -/
def InboundManager.new (env : InboundParseEnv) (inbounds : List Inbound) :
    Except String InboundManagerState :=
  match buildSimpleInbounds env inbounds [] with
  | .error e => .error e
  | .ok m0 =>
    match buildCompositesPasses env inbounds 4 m0 with
    | .error e => .error e
    | .ok m =>
      match buildListeners env inbounds m [] none false with
      | .error e => .error e
      | .ok (ls, tun, auto) =>
        .ok { handlers := m, network_listeners := ls,
              tun_listener_tag := tun, tun_auto := auto }

/-- Whether the external decode / constructor calls that
`InboundManager::new` makes for this inbound all succeed. -/
def inboundParsesOk (env : InboundParseEnv) (ib : Inbound) : Bool :=
  if ib.protocol = "shadowsocks" then (env.shadowsocks ib.settings).isSome
  else if ib.protocol = "trojan" then (env.trojan ib.settings).isSome
  else if ib.protocol = "ws" then (env.ws ib.settings).isSome
  else if ib.protocol = "quic" then
    match env.quic ib.settings with
    | none => false
    | some s => (env.quicNew s).isSome
  else if ib.protocol = "tls" then
    match env.tls ib.settings with
    | none => false
    | some s => (env.tlsNew s).isSome
  else if ib.protocol = "amux" then (env.amux ib.settings).isSome
  else if ib.protocol = "chain" then (env.chain ib.settings).isSome
  else if ib.protocol = "tun" then (env.tun ib.settings).isSome
  else true

/-- Whether a fallible construction succeeded. -/
def exceptIsOk : Except ε α → Bool
  | .ok _ => true
  | .error _ => false

/-! ## Runtime lifecycle (`src/ostrich/src/lib.rs`) -/

/-- The `Error` variants `start` can surface (other variants are not
produced on the modelled paths). -/
inductive StartError : Type where
  | config : StartError
  | io : StartError
deriving DecidableEq

/-- `const INSTANCE_ID: RuntimeId = 1`. -/
def INSTANCE_ID : Nat := 1

/-- `pub fn is_running()`: key membership in `RUNTIME_MANAGER`. -/
def is_running (registry : List (Nat × Nat)) : Bool :=
  imContains registry INSTANCE_ID

/-- The effect of one sequential call of `start` on the process-wide
registry `RUNTIME_MANAGER`.  Runtime managers are identified by a `Nat`
(`mgr` is the identity of the `RuntimeManager` this call allocates).
`configLoadOk` covers `config::from_file` / `from_string`
(`map_err(Error::Config)?`); `runtimeOk` covers `new_runtime` and
`Signals::new` (`Error::Io`); `buildOk` covers the remaining
config-phase constructors (`DnsClient::new`, `OutboundManager::new`,
`InboundManager::new`, `get_network_runners`, all
`map_err(Error::Config)?`).  All of those run before the registry is
touched; on success `start` inserts `(INSTANCE_ID, mgr)`, blocks on
`select_all` until shutdown, removes `INSTANCE_ID` and returns `Ok(())`.
`live` is the registry content during the blocking phase;
`registryFinal` the content when `start` returns. -/
structure StartTrace where
  result : Except StartError Unit
  live : Option (List (Nat × Nat))
  registryFinal : List (Nat × Nat)

/-- `pub fn start(opts: StartOptions) -> Result<(), Error>`, projected
onto its interaction with `RUNTIME_MANAGER`.  Note that the function
performs no membership check on the registry before proceeding. -/
def startRun (registry : List (Nat × Nat)) (configLoadOk runtimeOk buildOk : Bool)
    (mgr : Nat) : StartTrace :=
  if configLoadOk = false then
    { result := .error .config, live := none, registryFinal := registry }
  else if runtimeOk = false then
    { result := .error .io, live := none, registryFinal := registry }
  else if buildOk = false then
    { result := .error .config, live := none, registryFinal := registry }
  else
    let liveRegistry := imInsert registry INSTANCE_ID mgr
    { result := .ok (), live := some liveRegistry,
      registryFinal := imRemove liveRegistry INSTANCE_ID }

/-! ## Configuration loading and `test_config`

`config::from_file` lives in `src/ostrich/src/config`, which is not part
of the provided sources; it is modelled from the spec. -/

/-- The logical configuration tree as far as rule-target validation is
concerned: the set of configured outbound tags and the target outbound
tag of every router rule. -/
structure ConfigTree where
  outboundTags : List String
  ruleTargets : List String
deriving DecidableEq

/-- A rule target resolves when it names a configured outbound or is the
literal reserved tag `"direct"`. -/
def targetResolves (c : ConfigTree) (t : String) : Bool :=
  c.outboundTags.contains t ∨ t = "direct"

/-- First router-rule target that does not resolve, if any. -/
def firstUnresolvedTarget (c : ConfigTree) : Option String :=
  c.ruleTargets.find? (fun t => ¬ targetResolves c t)

/-- Modelled from the spec: `config::from_file` (the `config` module is
not among the provided sources).  Per the spec, every outbound tag
referenced by a router rule, except the literal reserved tag
`"direct"`, must resolve at build time; otherwise configuration fails
fast with a human-readable error. -/
def from_file (c : ConfigTree) : Except String ConfigTree :=
  match firstUnresolvedTarget c with
  | some t => .error ("rule target [" ++ t ++ "] not found among outbounds")
  | none => .ok c

/-- `pub fn test_config` from lib.rs: load the config, discard it. -/
def test_config (c : ConfigTree) : Except String Unit :=
  match from_file c with
  | .error e => .error e
  | .ok _ => .ok ()

/-- Whether every router-rule target of the configuration resolves. -/
def allRuleTargetsResolve (c : ConfigTree) : Bool :=
  c.ruleTargets.all (fun t => targetResolves c t)

/-! ## CLI (`src/ostrich-bin/src/main.rs`) -/

/-- `default_thread_stack_size` from main.rs: the `#[cfg]` pair is
modelled by the `debugAssertions` flag. -/
def default_thread_stack_size (debugAssertions : Bool) : Nat :=
  if debugAssertions then 2 * 1024 * 1024 else 256 * 1024

/-- `default_thread_stack_size` from lib.rs (its `#[cfg]` attribute is
commented out; the function returns 2 MiB unconditionally and is unused
by the binary). -/
def lib_default_thread_stack_size : Nat := 2 * 1024 * 1024

/-- The `Args` record parsed by argh in main.rs (non-windows,
`auto-reload` feature off). -/
structure Args where
  config : String
  single_thread : Bool
  thread_stack_size : Nat
  test : Bool
  test_outbound : Option String
  test_outbound_timeout : Nat
  boundif : Option String
  version : Bool
deriving DecidableEq

/-- The argh defaults of `Args`: `config.conf`, stack size from
`default_thread_stack_size()`, connectivity-test timeout 4 seconds;
switches default to off and plain options to absent. -/
def Args.parsedDefaults (debugAssertions : Bool) : Args :=
  { config := "config.conf", single_thread := false,
    thread_stack_size := default_thread_stack_size debugAssertions,
    test := false, test_outbound := none, test_outbound_timeout := 4,
    boundif := none, version := false }

/-- The `-T` branch of `main`: run `test_config`, print one line and
exit.  Result: `(lines printed to stdout, exit code)`. -/
def runTestMode (c : ConfigTree) : List String × Nat :=
  match test_config c with
  | .error e => ([e], 1)
  | .ok _ => (["ok"], 0)

/-- One line of connectivity-test output: `Duration::as_millis` of the
probe duration on success, the error otherwise. -/
def formatProbeLine (direction : String) (res : Except String Nat) : String :=
  match res with
  | .ok millis => direction ++ " ok in " ++ toString millis ++ "ms"
  | .error e => direction ++ " failed: " ++ e

/-- The `-t <tag>` branch of `main`.  `probe` is
`util::test_outbound(&tag, &config, timeout)` (the `util` module is not
among the provided sources; per the spec it probes TCP and UDP
reachability through the named outbound, honouring the given per-probe
timeout, and returns one result per direction).  `main` passes
`Some(Duration::from_secs(args.test_outbound_timeout))`; durations are
in seconds on the way in, milliseconds on the way out. -/
def runTestOutboundMode (timeoutSecs : Nat)
    (probe : Option Nat → Except String (Except String Nat × Except String Nat)) :
    List String × Nat :=
  match probe (some timeoutSecs) with
  | .error e => (["test outbound failed: " ++ e], 1)
  | .ok (tcpRes, udpRes) =>
    ([formatProbeLine "TCP" tcpRes, formatProbeLine "UDP" udpRes], 0)

/-- `StartOptions` (non-android): `start` receives only the config
source.  `main` builds it from `args.config` alone. -/
structure StartOptions where
  configPath : String
deriving DecidableEq

/-- What `main` forwards to `util::run_with_options` → `start`: just the
configuration path (plus windows-only asset paths). -/
def run_with_options_call (a : Args) : StartOptions :=
  { configPath := a.config }

/-- The tokio runtime builder configuration assembled by `new_runtime`
in lib.rs: `Builder::new_multi_thread().enable_all().build()`; the
`.thread_stack_size(..)` call is commented out, so no explicit worker
stack size is ever set. -/
structure RuntimeBuilderConfig where
  multi_thread : Bool
  thread_stack_size : Option Nat
  enable_all : Bool
deriving DecidableEq

/-- `fn new_runtime` (lib.rs), as the builder configuration it uses. -/
def new_runtime_builder : RuntimeBuilderConfig :=
  { multi_thread := true, thread_stack_size := none, enable_all := true }

/-! ## Trojan outbound TLS (`src/ostrich/src/proxy/trojan/outbound/tls.rs`) -/

/-- A `webpki_roots::TLS_SERVER_ROOTS` entry. -/
structure TrustAnchor where
  subject : List Nat
  spki : List Nat
  name_constraints : Option (List Nat)
deriving DecidableEq

/-- `tokio_rustls::rustls::OwnedTrustAnchor`. -/
structure OwnedTrustAnchor where
  subject : List Nat
  spki : List Nat
  name_constraints : Option (List Nat)
deriving DecidableEq

/-- `OwnedTrustAnchor::from_subject_spki_name_constraints`. -/
def OwnedTrustAnchor.from_subject_spki_name_constraints
    (subject spki : List Nat) (nc : Option (List Nat)) : OwnedTrustAnchor :=
  { subject := subject, spki := spki, name_constraints := nc }

/-- The parts of `rustls::ClientConfig` fixed by `make_config`: the root
store contents, the `with_safe_defaults` choice and the client-auth
choice. -/
structure ClientConfig where
  root_store : List OwnedTrustAnchor
  safe_defaults : Bool
  no_client_auth : Bool
deriving DecidableEq

/-- `make_config` from trojan/outbound/tls.rs.  `tlsServerRoots` stands
for the bundled constant `webpki_roots::TLS_SERVER_ROOTS.0`; the
`config` argument is received but never read. -/
def make_config (tlsServerRoots : List TrustAnchor)
    (config : TrojanOutboundSettings) : ClientConfig :=
  { root_store := tlsServerRoots.map (fun ta =>
      OwnedTrustAnchor.from_subject_spki_name_constraints
        ta.subject ta.spki ta.name_constraints),
    safe_defaults := true, no_client_auth := true }

/-! ## Lemmas about the map embedding -/

theorem imContains_append_left [DecidableEq κ] {m suf : List (κ × α)} {k : κ}
    (h : imContains m k = true) : imContains (m ++ suf) k = true := by
  simp only [imContains, List.any_append, Bool.or_eq_true]
  exact Or.inl h

theorem imInsert_of_not_contains [DecidableEq κ] {m : List (κ × α)} {k : κ} {v : α}
    (h : imContains m k = false) : imInsert m k v = m ++ [(k, v)] := by
  induction m with
  | nil => rfl
  | cons p rest ih =>
    simp only [imContains, List.any_cons, Bool.or_eq_false_iff,
      decide_eq_false_iff_not] at h
    simp only [imInsert, if_neg h.1, List.cons_append]
    rw [ih]
    simp only [imContains]
    exact h.2

theorem mem_imInsert_elim [DecidableEq κ] {m : List (κ × α)} {k : κ} {v : α}
    {p : κ × α} (h : p ∈ imInsert m k v) : p ∈ m ∨ p = (k, v) := by
  induction m with
  | nil => simp only [imInsert, List.mem_singleton] at h; exact Or.inr h
  | cons q rest ih =>
    simp only [imInsert] at h
    split at h
    · rcases List.mem_cons.mp h with h1 | h1
      · exact Or.inr h1
      · exact Or.inl (List.mem_cons_of_mem _ h1)
    · rcases List.mem_cons.mp h with h1 | h1
      · exact Or.inl (h1 ▸ List.mem_cons_self _ _)
      · rcases ih h1 with h2 | h2
        · exact Or.inl (List.mem_cons_of_mem _ h2)
        · exact Or.inr h2

theorem imGet_append_of_mem_head [DecidableEq κ] {k : κ} {v : α}
    (suf : List (κ × α)) : imGet ((k, v) :: suf) k = some v := by
  simp [imGet, List.find?_cons]

/-! ## Monotonicity of `load_handlers` -/

theorem loadGo_mono {parse : List Nat → Option TrojanOutboundSettings} :
    ∀ {rest : List Outbound} {st : LoadState} {cache : List HandlerCacheEntry}
      {st' : LoadState}, loadGo parse rest st cache = .ok st' →
      (∃ suf, st'.handlers = st.handlers ++ suf) ∧
      (∀ d, st.default_handler = some d → st'.default_handler = some d) := by
  intro rest
  induction rest with
  | nil =>
    intro st cache st' h
    simp only [loadGo] at h
    cases h
    exact ⟨⟨[], by simp⟩, fun d hd => hd⟩
  | cons ob rest ih =>
    intro st cache st' h
    simp only [loadGo] at h
    by_cases hc : imContains st.handlers ob.tag = true
    · rw [if_pos hc] at h
      exact ih h
    · rw [if_neg hc] at h
      rw [Bool.not_eq_true] at hc
      -- the default slot after the is_none check
      have hd1 : ∀ d, st.default_handler = some d →
          (if st.default_handler.isNone then
            { st with default_handler := some ob.tag } else st).default_handler
            = some d := by
        intro d hd
        simp [hd]
      set st1 := if st.default_handler.isNone then
          { st with default_handler := some ob.tag } else st with hst1
      have hh1 : st1.handlers = st.handlers := by
        rw [hst1]; split <;> rfl
      match hfind : cacheFind cache ob.protocol ob.settings with
      | some e =>
        rw [hfind] at h
        obtain ⟨⟨suf, hsuf⟩, hdef⟩ := ih h
        rw [imInsert_of_not_contains (hh1 ▸ hc)] at hsuf
        refine ⟨⟨(ob.tag, e.handler) :: suf, ?_⟩, ?_⟩
        · rw [hsuf, hh1]; simp
        · intro d hd
          exact hdef d (hd1 d hd)
      | none =>
        rw [hfind] at h
        by_cases hdir : ob.protocol = "direct"
        · rw [if_pos hdir] at h
          obtain ⟨⟨suf, hsuf⟩, hdef⟩ := ih h
          rw [imInsert_of_not_contains (hh1 ▸ hc)] at hsuf
          refine ⟨⟨(ob.tag, OHandler.mk st1.nextId ob.tag ob.protocol ob.settings) :: suf, ?_⟩, ?_⟩
          · rw [hsuf, hh1]; simp
          · intro d hd
            exact hdef d (hd1 d hd)
        · rw [if_neg hdir] at h
          by_cases htro : ob.protocol = "trojan"
          · rw [if_pos htro] at h
            match hp : parse ob.settings with
            | none => rw [hp] at h; cases h
            | some s =>
              rw [hp] at h
              obtain ⟨⟨suf, hsuf⟩, hdef⟩ := ih h
              rw [imInsert_of_not_contains (hh1 ▸ hc)] at hsuf
              refine ⟨⟨(ob.tag, OHandler.mk st1.nextId ob.tag ob.protocol ob.settings) :: suf, ?_⟩, ?_⟩
              · rw [hsuf, hh1]; simp
              · intro d hd
                exact hdef d (hd1 d hd)
          · rw [if_neg htro] at h
            obtain ⟨⟨suf, hsuf⟩, hdef⟩ := ih h
            refine ⟨⟨suf, by rw [hsuf, hh1]⟩, ?_⟩
            intro d hd
            exact hdef d (hd1 d hd)

/-- After a successful `load_handlers` run, every outbound entry either
has its tag in the handler map, or its protocol has no build arm and the
default slot is filled. -/
theorem loadGo_post {parse : List Nat → Option TrojanOutboundSettings} :
    ∀ {rest : List Outbound} {st : LoadState} {cache : List HandlerCacheEntry}
      {st' : LoadState}, loadGo parse rest st cache = .ok st' →
      ∀ ob ∈ rest, imContains st'.handlers ob.tag = true ∨
        (supportedOutboundProtocol ob.protocol = false ∧
          st'.default_handler.isSome = true) := by
  intro rest
  induction rest with
  | nil => intro st cache st' _ ob hob; cases hob
  | cons ob0 rest ih =>
    intro st cache st' h ob hob
    have hcontains_later : ∀ {stm : LoadState} {cachem : List HandlerCacheEntry},
        loadGo parse rest stm cachem = .ok st' →
        imContains stm.handlers ob.tag = true →
        imContains st'.handlers ob.tag = true := by
      intro stm cachem hm hcm
      obtain ⟨⟨suf, hsuf⟩, _⟩ := loadGo_mono hm
      rw [hsuf]
      exact imContains_append_left hcm
    simp only [loadGo] at h
    rcases List.mem_cons.mp hob with hob0 | hrest
    · -- the property for the head entry
      subst hob0
      by_cases hc : imContains st.handlers ob.tag = true
      · rw [if_pos hc] at h
        exact Or.inl (hcontains_later h hc)
      · rw [if_neg hc] at h
        rw [Bool.not_eq_true] at hc
        set st1 := if st.default_handler.isNone then
            { st with default_handler := some ob.tag } else st with hst1
        have hh1 : st1.handlers = st.handlers := by
          rw [hst1]; split <;> rfl
        have hd1 : ∃ d, st1.default_handler = some d := by
          rw [hst1]
          match hd : st.default_handler with
          | none => exact ⟨ob.tag, by simp [hd]⟩
          | some d => exact ⟨d, by simp [hd]⟩
        have hself : ∀ v, imContains (imInsert st1.handlers ob.tag v) ob.tag = true := by
          intro v
          rw [imInsert_of_not_contains (hh1 ▸ hc), imContains, List.any_append]
          simp [imContains]
        match hfind : cacheFind cache ob.protocol ob.settings with
        | some e =>
          rw [hfind] at h
          exact Or.inl (hcontains_later h (hself e.handler))
        | none =>
          rw [hfind] at h
          by_cases hdir : ob.protocol = "direct"
          · rw [if_pos hdir] at h
            exact Or.inl (hcontains_later h (hself _))
          · rw [if_neg hdir] at h
            by_cases htro : ob.protocol = "trojan"
            · rw [if_pos htro] at h
              match hp : parse ob.settings with
              | none => rw [hp] at h; cases h
              | some s =>
                rw [hp] at h
                exact Or.inl (hcontains_later h (hself _))
            · rw [if_neg htro] at h
              obtain ⟨d, hd⟩ := hd1
              obtain ⟨_, hdef⟩ := loadGo_mono h
              refine Or.inr ⟨?_, ?_⟩
              · simp [supportedOutboundProtocol, hdir, htro]
              · rw [hdef d hd]; rfl
    · -- the property for entries in the tail: every branch recurses
      by_cases hc : imContains st.handlers ob0.tag = true
      · rw [if_pos hc] at h
        exact ih h ob hrest
      · rw [if_neg hc] at h
        match hfind : cacheFind cache ob0.protocol ob0.settings with
        | some e =>
          rw [hfind] at h
          exact ih h ob hrest
        | none =>
          rw [hfind] at h
          by_cases hdir : ob0.protocol = "direct"
          · rw [if_pos hdir] at h
            exact ih h ob hrest
          · rw [if_neg hdir] at h
            by_cases htro : ob0.protocol = "trojan"
            · rw [if_pos htro] at h
              match hp : parse ob0.settings with
              | none => rw [hp] at h; cases h
              | some s =>
                rw [hp] at h
                exact ih h ob hrest
            · rw [if_neg htro] at h
              exact ih h ob hrest

/-- A state satisfying the post-condition of `load_handlers` is a fixed
point of `load_handlers`. -/
theorem loadGo_stable {parse : List Nat → Option TrojanOutboundSettings} :
    ∀ {rest : List Outbound} {st : LoadState},
      (∀ ob ∈ rest, imContains st.handlers ob.tag = true ∨
        (supportedOutboundProtocol ob.protocol = false ∧
          st.default_handler.isSome = true)) →
      loadGo parse rest st [] = .ok st := by
  intro rest
  induction rest with
  | nil => intro st _; rfl
  | cons ob rest ih =>
    intro st hyp
    simp only [loadGo]
    by_cases hc : imContains st.handlers ob.tag = true
    · rw [if_pos hc]
      exact ih (fun o ho => hyp o (List.mem_cons_of_mem _ ho))
    · rw [if_neg hc]
      rcases hyp ob (List.mem_cons_self _ _) with h1 | ⟨hsup, hdef⟩
      · exact absurd h1 hc
      · have hnone : st.default_handler.isNone = false := by
          rw [Option.isNone_eq_false_iff, Option.isSome_iff_exists]
          exact Option.isSome_iff_exists.mp hdef
        rw [if_neg (by simp [hnone])]
        have hfind : cacheFind ([] : List HandlerCacheEntry) ob.protocol ob.settings = none := rfl
        rw [hfind]
        have hdir : ¬ ob.protocol = "direct" := by
          intro hx
          simp [supportedOutboundProtocol, hx] at hsup
        have htro : ¬ ob.protocol = "trojan" := by
          intro hx
          simp [supportedOutboundProtocol, hx] at hsup
        rw [if_neg hdir, if_neg htro]
        exact ih (fun o ho => hyp o (List.mem_cons_of_mem _ ho))

/-- `load_handlers` is idempotent on the state it produces. -/
theorem load_handlers_idem {parse : List Nat → Option TrojanOutboundSettings}
    {obs : List Outbound} {st0 st : LoadState}
    (h : load_handlers parse obs st0 = .ok st) :
    load_handlers parse obs st = .ok st :=
  loadGo_stable (loadGo_post h)

/-- Iterating from a fixed point of `load_handlers` changes nothing. -/
theorem loadPasses_fix {parse : List Nat → Option TrojanOutboundSettings}
    {obs : List Outbound} {st : LoadState}
    (h : load_handlers parse obs st = .ok st) :
    ∀ n, loadPasses parse obs n st = .ok st := by
  intro n
  induction n with
  | zero => rfl
  | succ n ihn =>
    simp only [loadPasses, h]
    exact ihn

/-- The four passes of `OutboundManager::new` compute exactly the result
of the first pass. -/
theorem OutboundManager.new_eq_single_pass
    (parse : List Nat → Option TrojanOutboundSettings) (obs : List Outbound) :
    OutboundManager.new parse obs =
      match load_handlers parse obs initLoadState with
      | .error e => .error e
      | .ok st => .ok { handlers := st.handlers, default_handler := st.default_handler } := by
  unfold OutboundManager.new
  match hp : load_handlers parse obs initLoadState with
  | .error e =>
    simp only [loadPasses, initLoadState] at *
    rw [hp]
  | .ok st =>
    have hfix := loadPasses_fix (load_handlers_idem hp) 3
    simp only [loadPasses, initLoadState] at *
    rw [hp, hfix]

/-! ## The dedup invariant of `load_handlers` -/

/-- Invariant tying the handler map to the scratch cache within one
`load_handlers` call: cache entries record their handler's protocol and
settings, hold ids below the allocation counter, are pairwise distinct
both by `(protocol, settings)` pair and by handler id, and every map
value is the handler of some cache entry. -/
def CacheInv (st : LoadState) (cache : List HandlerCacheEntry) : Prop :=
  (∀ e ∈ cache, e.handler.protocol = e.protocol ∧ e.handler.settings = e.settings ∧
      e.handler.id < st.nextId) ∧
  (∀ e1 ∈ cache, ∀ e2 ∈ cache,
      e1.protocol = e2.protocol → e1.settings = e2.settings → e1 = e2) ∧
  (∀ e1 ∈ cache, ∀ e2 ∈ cache, e1.handler.id = e2.handler.id → e1 = e2) ∧
  (∀ p ∈ st.handlers, ∃ e ∈ cache, e.handler = p.2)

/-- Running `load_handlers` preserves the cache invariant and only adds
map entries that come from some processed outbound. -/
theorem loadGo_inv {parse : List Nat → Option TrojanOutboundSettings} :
    ∀ {rest : List Outbound} {st : LoadState} {cache : List HandlerCacheEntry}
      {st' : LoadState}, loadGo parse rest st cache = .ok st' →
      CacheInv st cache →
      ∃ cache', CacheInv st' cache' ∧
        (∀ p ∈ st'.handlers, p ∈ st.handlers ∨
          ∃ ob ∈ rest, ob.tag = p.1 ∧ ob.protocol = p.2.protocol ∧
            ob.settings = p.2.settings) := by
  intro rest
  induction rest with
  | nil =>
    intro st cache st' h hinv
    simp only [loadGo] at h
    cases h
    exact ⟨cache, hinv, fun p hp => Or.inl hp⟩
  | cons ob rest ih =>
    intro st cache st' h hinv
    obtain ⟨hfields, hpairs, hids, hcover⟩ := hinv
    simp only [loadGo] at h
    by_cases hc : imContains st.handlers ob.tag = true
    · rw [if_pos hc] at h
      obtain ⟨cache', hinv', hprov⟩ := ih h ⟨hfields, hpairs, hids, hcover⟩
      refine ⟨cache', hinv', fun p hp => ?_⟩
      rcases hprov p hp with h1 | ⟨ob1, hob1, hrest1⟩
      · exact Or.inl h1
      · exact Or.inr ⟨ob1, List.mem_cons_of_mem _ hob1, hrest1⟩
    · rw [if_neg hc] at h
      rw [Bool.not_eq_true] at hc
      set st1 := if st.default_handler.isNone then
          { st with default_handler := some ob.tag } else st with hst1
      have hh1 : st1.handlers = st.handlers := by
        rw [hst1]; split <;> rfl
      have hn1 : st1.nextId = st.nextId := by
        rw [hst1]; split <;> rfl
      match hfind : cacheFind cache ob.protocol ob.settings with
      | some e =>
        rw [hfind] at h
        have hemem : e ∈ cache ∧ e.protocol = ob.protocol ∧ e.settings = ob.settings := by
          have h1 := List.mem_of_find?_eq_some hfind
          have h2 := List.find?_some hfind
          simp only [decide_eq_true_eq] at h2
          exact ⟨h1, h2.1, h2.2⟩
        have hinv2 : CacheInv { st1 with handlers := imInsert st1.handlers ob.tag e.handler } cache := by
          refine ⟨?_, hpairs, hids, ?_⟩
          · intro e1 he1
            obtain ⟨hf1, hf2, hf3⟩ := hfields e1 he1
            exact ⟨hf1, hf2, by simpa [hn1] using hf3⟩
          · intro p hp
            rcases mem_imInsert_elim hp with hp1 | hp1
            · exact hcover p (hh1 ▸ hp1)
            · exact ⟨e, hemem.1, by rw [hp1]⟩
        obtain ⟨cache', hinv', hprov⟩ := ih h hinv2
        refine ⟨cache', hinv', fun p hp => ?_⟩
        rcases hprov p hp with h1 | ⟨ob1, hob1, hrest1⟩
        · rcases mem_imInsert_elim h1 with h2 | h2
          · exact Or.inl (hh1 ▸ h2)
          · refine Or.inr ⟨ob, List.mem_cons_self _ _, ?_⟩
            obtain ⟨hf1, hf2, _⟩ := hfields e hemem.1
            rw [h2]
            exact ⟨rfl, by rw [hf1, hemem.2.1], by rw [hf2, hemem.2.2]⟩
        · exact Or.inr ⟨ob1, List.mem_cons_of_mem _ hob1, hrest1⟩
      | none =>
        rw [hfind] at h
        have hnotfound : ∀ e ∈ cache, ¬(e.protocol = ob.protocol ∧ e.settings = ob.settings) := by
          intro e he hcontra
          have := List.find?_eq_none.mp hfind e he
          simp only [decide_eq_true_eq] at this
          exact this hcontra
        -- shared reasoning for the two build arms
        have hbuild : ∀ {st2 : LoadState},
            loadGo parse rest
              { handlers := imInsert st1.handlers ob.tag
                  (OHandler.mk st1.nextId ob.tag ob.protocol ob.settings),
                default_handler := st1.default_handler,
                nextId := st1.nextId + 1 }
              (cache ++ [HandlerCacheEntry.mk ob.tag
                  (OHandler.mk st1.nextId ob.tag ob.protocol ob.settings)
                  ob.protocol ob.settings]) = .ok st2 →
            ∃ cache', CacheInv st2 cache' ∧
              (∀ p ∈ st2.handlers, p ∈ st.handlers ∨
                ∃ ob1 ∈ ob :: rest, ob1.tag = p.1 ∧ ob1.protocol = p.2.protocol ∧
                  ob1.settings = p.2.settings) := by
          intro st2 h2
          set hNew : OHandler := OHandler.mk st1.nextId ob.tag ob.protocol ob.settings with hhNew
          set eNew : HandlerCacheEntry :=
            HandlerCacheEntry.mk ob.tag hNew ob.protocol ob.settings with heNew
          have hinv2 : CacheInv
              { handlers := imInsert st1.handlers ob.tag hNew,
                default_handler := st1.default_handler, nextId := st1.nextId + 1 }
              (cache ++ [eNew]) := by
            refine ⟨?_, ?_, ?_, ?_⟩
            · intro e1 he1
              rcases List.mem_append.mp he1 with he1 | he1
              · obtain ⟨hf1, hf2, hf3⟩ := hfields e1 he1
                refine ⟨hf1, hf2, ?_⟩
                show e1.handler.id < st1.nextId + 1
                rw [hn1]
                omega
              · rw [List.mem_singleton.mp he1, heNew, hhNew]
                exact ⟨rfl, rfl, Nat.lt_succ_self _⟩
            · intro e1 he1 e2 he2 hpr hse
              rcases List.mem_append.mp he1 with he1 | he1 <;>
                rcases List.mem_append.mp he2 with he2 | he2
              · exact hpairs e1 he1 e2 he2 hpr hse
              · rw [List.mem_singleton.mp he2, heNew] at hpr hse
                exact absurd ⟨hpr, hse⟩ (hnotfound e1 he1)
              · rw [List.mem_singleton.mp he1, heNew] at hpr hse
                exact absurd ⟨hpr.symm, hse.symm⟩ (hnotfound e2 he2)
              · rw [List.mem_singleton.mp he1, List.mem_singleton.mp he2]
            · intro e1 he1 e2 he2 hid
              rcases List.mem_append.mp he1 with he1 | he1 <;>
                rcases List.mem_append.mp he2 with he2 | he2
              · exact hids e1 he1 e2 he2 hid
              · obtain ⟨_, _, hf3⟩ := hfields e1 he1
                rw [List.mem_singleton.mp he2, heNew, hhNew] at hid
                simp only at hid
                rw [hn1] at *
                omega
              · obtain ⟨_, _, hf3⟩ := hfields e2 he2
                rw [List.mem_singleton.mp he1, heNew, hhNew] at hid
                simp only at hid
                rw [hn1] at *
                omega
              · rw [List.mem_singleton.mp he1, List.mem_singleton.mp he2]
            · intro p hp
              rcases mem_imInsert_elim hp with hp1 | hp1
              · obtain ⟨e1, he1, hh⟩ := hcover p (hh1 ▸ hp1)
                exact ⟨e1, List.mem_append_left _ he1, hh⟩
              · exact ⟨eNew, List.mem_append_right _ (List.mem_singleton_self _),
                  by rw [hp1]⟩
          obtain ⟨cache', hinv', hprov⟩ := ih h2 hinv2
          refine ⟨cache', hinv', fun p hp => ?_⟩
          rcases hprov p hp with h3 | ⟨ob1, hob1, hrest1⟩
          · rcases mem_imInsert_elim h3 with h4 | h4
            · exact Or.inl (hh1 ▸ h4)
            · refine Or.inr ⟨ob, List.mem_cons_self _ _, ?_⟩
              rw [h4, hhNew]
              exact ⟨rfl, rfl, rfl⟩
          · exact Or.inr ⟨ob1, List.mem_cons_of_mem _ hob1, hrest1⟩
        by_cases hdir : ob.protocol = "direct"
        · rw [if_pos hdir] at h
          exact hbuild h
        · rw [if_neg hdir] at h
          by_cases htro : ob.protocol = "trojan"
          · rw [if_pos htro] at h
            match hp : parse ob.settings with
            | none => rw [hp] at h; cases h
            | some s =>
              rw [hp] at h
              exact hbuild h
          · rw [if_neg htro] at h
            have hinv2 : CacheInv st1 cache := by
              refine ⟨?_, hpairs, hids, ?_⟩
              · intro e1 he1
                obtain ⟨hf1, hf2, hf3⟩ := hfields e1 he1
                exact ⟨hf1, hf2, by rw [hn1]; exact hf3⟩
              · intro p hp
                exact hcover p (hh1 ▸ hp)
            obtain ⟨cache', hinv', hprov⟩ := ih h hinv2
            refine ⟨cache', hinv', fun p hp => ?_⟩
            rcases hprov p hp with h1 | ⟨ob1, hob1, hrest1⟩
            · exact Or.inl (hh1 ▸ h1)
            · exact Or.inr ⟨ob1, List.mem_cons_of_mem _ hob1, hrest1⟩

/-- From the cache invariant: two map values share an id exactly when
they carry the same `(protocol, settings)` pair. -/
theorem sharing_of_cacheInv {st : LoadState} {cache : List HandlerCacheEntry}
    (hinv : CacheInv st cache) :
    ∀ p1 ∈ st.handlers, ∀ p2 ∈ st.handlers,
      (p1.2.id = p2.2.id ↔ pairOf p1.2 = pairOf p2.2) := by
  obtain ⟨hfields, hpairs, hids, hcover⟩ := hinv
  intro p1 hp1 p2 hp2
  obtain ⟨e1, he1, hh1⟩ := hcover p1 hp1
  obtain ⟨e2, he2, hh2⟩ := hcover p2 hp2
  constructor
  · intro hid
    have : e1 = e2 := hids e1 he1 e2 he2 (by rw [hh1, hh2]; exact hid)
    rw [← hh1, ← hh2, this]
  · intro hpair
    obtain ⟨hf11, hf12, _⟩ := hfields e1 he1
    obtain ⟨hf21, hf22, _⟩ := hfields e2 he2
    have hpr : e1.protocol = e2.protocol := by
      have := congrArg Prod.fst hpair
      simp only [pairOf] at this
      rw [← hh1, ← hh2, hf11, hf21] at this
      exact this
    have hse : e1.settings = e2.settings := by
      have := congrArg Prod.snd hpair
      simp only [pairOf] at this
      rw [← hh1, ← hh2, hf12, hf22] at this
      exact this
    have : e1 = e2 := hpairs e1 he1 e2 he2 hpr hse
    rw [← hh1, ← hh2, this]

/-- Counting distinct images: two functions with the same equality
kernel on a list have the same number of distinct values on it. -/
theorem dedup_length_congr {α β γ : Type} [DecidableEq β] [DecidableEq γ]
    (f : α → β) (g : α → γ) :
    ∀ (l : List α), (∀ x ∈ l, ∀ y ∈ l, (f x = f y ↔ g x = g y)) →
      (l.map f).dedup.length = (l.map g).dedup.length := by
  intro l
  induction l with
  | nil => intro _; rfl
  | cons a l ih =>
    intro hker
    have hmem : f a ∈ l.map f ↔ g a ∈ l.map g := by
      simp only [List.mem_map]
      constructor
      · rintro ⟨x, hx, hfx⟩
        exact ⟨x, hx, (hker x (List.mem_cons_of_mem _ hx) a
          (List.mem_cons_self _ _)).mp hfx⟩
      · rintro ⟨x, hx, hgx⟩
        exact ⟨x, hx, (hker x (List.mem_cons_of_mem _ hx) a
          (List.mem_cons_self _ _)).mpr hgx⟩
    have hihres := ih (fun x hx y hy =>
      hker x (List.mem_cons_of_mem _ hx) y (List.mem_cons_of_mem _ hy))
    simp only [List.map_cons]
    by_cases hm : f a ∈ l.map f
    · rw [List.dedup_cons_of_mem hm, List.dedup_cons_of_mem (hmem.mp hm)]
      exact hihres
    · rw [List.dedup_cons_of_not_mem hm,
        List.dedup_cons_of_not_mem (fun hx => hm (hmem.mpr hx))]
      simp only [List.length_cons]
      exact congrArg Nat.succ hihres

/-! ## Claim C1 -/

/-- C1, counterexample.  The claim counts distinct `(protocol,
settings-blob)` pairs over all outbound entries; an entry whose protocol
has no build arm (here `"foo"`) contributes a pair but no handler, so
for this configuration `OutboundManager::new` succeeds with zero built
instances while the outbounds carry one distinct pair. -/
theorem c1_dedup_cex :
    OutboundManager.new (fun _ => none)
        [{ tag := "a", protocol := "foo", settings := [] }] =
      .ok { handlers := [], default_handler := some "a" } ∧
    distinctInstances { handlers := [], default_handler := some "a" } = 0 ∧
    distinctPairsOfOutbounds
        [{ tag := "a", protocol := "foo", settings := [] }] = 1 :=
  ⟨rfl, rfl, rfl⟩

/-- C1 (amended): after `OutboundManager::new` succeeds, two catalog
entries share an underlying handler instance iff they carry identical
`(protocol, settings)`; hence the number of distinct built instances
equals the number of distinct `(protocol, settings)` pairs among the
catalog entries, each of which stems from a configured outbound with
that tag.  (Entries with unsupported protocols or with an
already-bound tag produce no catalog entry and are not counted.) -/
theorem c1_dedup (parse : List Nat → Option TrojanOutboundSettings)
    (outbounds : List Outbound) (M : OutboundManager)
    (h : OutboundManager.new parse outbounds = .ok M) :
    (∀ p1 ∈ M.handlers, ∀ p2 ∈ M.handlers,
      (p1.2.id = p2.2.id ↔ pairOf p1.2 = pairOf p2.2)) ∧
    distinctInstances M = distinctPairsInCatalog M ∧
    (∀ p ∈ M.handlers, ∃ ob ∈ outbounds, ob.tag = p.1 ∧
      ob.protocol = p.2.protocol ∧ ob.settings = p.2.settings) := by
  rw [OutboundManager.new_eq_single_pass] at h
  match hload : load_handlers parse outbounds initLoadState with
  | .error e => rw [hload] at h; cases h
  | .ok st =>
    rw [hload] at h
    have hM : M = { handlers := st.handlers, default_handler := st.default_handler } := by
      cases h; rfl
    have hinv0 : CacheInv initLoadState [] := by
      refine ⟨?_, ?_, ?_, ?_⟩ <;> intro e he <;> cases he
    obtain ⟨cache', hinv', hprov⟩ := loadGo_inv hload hinv0
    have hshare := sharing_of_cacheInv hinv'
    subst hM
    refine ⟨hshare, ?_, ?_⟩
    · exact dedup_length_congr (fun p => p.2.id) (fun p => pairOf p.2)
        st.handlers hshare
    · intro p hp
      rcases hprov p hp with h1 | h1
      · cases h1
      · exact h1

/-- C1 witness: two direct outbounds with equal settings; one instance,
one pair. -/
theorem c1_dedup_witness :
    distinctInstances
        { handlers := [("a", OHandler.mk 0 "a" "direct" []),
                       ("b", OHandler.mk 0 "a" "direct" [])],
          default_handler := some "a" } =
      distinctPairsInCatalog
        { handlers := [("a", OHandler.mk 0 "a" "direct" []),
                       ("b", OHandler.mk 0 "a" "direct" [])],
          default_handler := some "a" } :=
  (c1_dedup (fun _ => none)
    [{ tag := "a", protocol := "direct", settings := [] },
     { tag := "b", protocol := "direct", settings := [] }]
    { handlers := [("a", OHandler.mk 0 "a" "direct" []),
                   ("b", OHandler.mk 0 "a" "direct" [])],
      default_handler := some "a" } rfl).2.1

/-! ## Claim C2 -/

/-- C2, counterexample.  With a first outbound of unsupported protocol,
`default_handler` is set to its tag before the protocol match, yet no
handler is ever inserted under that tag: the default is not the first
tag inserted into the catalog (that is `"b"`), and it names no handler. -/
theorem c2_default_cex :
    OutboundManager.new (fun _ => none)
        [{ tag := "a", protocol := "foo", settings := [] },
         { tag := "b", protocol := "direct", settings := [] }] =
      .ok { handlers := [("b", OHandler.mk 0 "b" "direct" [])],
            default_handler := some "a" } ∧
    imGet [("b", OHandler.mk 0 "b" "direct" [])] "a" = (none : Option OHandler) :=
  ⟨rfl, rfl⟩

/-- C2 (amended): for a non-empty outbound list, `default_handler()`
returns the tag of the first configured outbound, whether or not that
entry produced a catalog entry; when the first outbound's protocol has
a build arm, its tag is the first key of the catalog and names a
present handler. -/
theorem c2_default_first (parse : List Nat → Option TrojanOutboundSettings)
    (ob0 : Outbound) (rest : List Outbound) (M : OutboundManager)
    (h : OutboundManager.new parse (ob0 :: rest) = .ok M) :
    M.default_handler = some ob0.tag ∧
    (supportedOutboundProtocol ob0.protocol = true →
      M.handlers.head?.map Prod.fst = some ob0.tag ∧
      (M.get ob0.tag).isSome = true) := by
  rw [OutboundManager.new_eq_single_pass] at h
  match hload : load_handlers parse (ob0 :: rest) initLoadState with
  | .error e => rw [hload] at h; cases h
  | .ok st =>
    rw [hload] at h
    have hM : M = { handlers := st.handlers, default_handler := st.default_handler } := by
      cases h; rfl
    subst hM
    simp only [load_handlers, loadGo, initLoadState, imContains, List.any_nil,
      Bool.false_eq_true, if_false, Option.isNone_none, if_true, cacheFind,
      List.find?_nil] at hload
    by_cases hdir : ob0.protocol = "direct"
    · rw [if_pos hdir] at hload
      simp only [imInsert] at hload
      obtain ⟨⟨suf, hsuf⟩, hdef⟩ := loadGo_mono hload
      refine ⟨hdef ob0.tag rfl, fun _ => ?_⟩
      constructor
      · show (st.handlers.head?.map Prod.fst) = some ob0.tag
        rw [hsuf]
        rfl
      · show (imGet st.handlers ob0.tag).isSome = true
        rw [hsuf, List.singleton_append, imGet_append_of_mem_head]
        rfl
    · rw [if_neg hdir] at hload
      by_cases htro : ob0.protocol = "trojan"
      · rw [if_pos htro] at hload
        match hp : parse ob0.settings with
        | none => rw [hp] at hload; cases hload
        | some s =>
          rw [hp] at hload
          simp only [imInsert] at hload
          obtain ⟨⟨suf, hsuf⟩, hdef⟩ := loadGo_mono hload
          refine ⟨hdef ob0.tag rfl, fun _ => ?_⟩
          constructor
          · show (st.handlers.head?.map Prod.fst) = some ob0.tag
            rw [hsuf]
            rfl
          · show (imGet st.handlers ob0.tag).isSome = true
            rw [hsuf, List.singleton_append, imGet_append_of_mem_head]
            rfl
      · rw [if_neg htro] at hload
        obtain ⟨_, hdef⟩ := loadGo_mono hload
        refine ⟨hdef ob0.tag rfl, fun hsup => ?_⟩
        simp [supportedOutboundProtocol, hdir, htro] at hsup

/-- C2 witness: a single direct outbound. -/
theorem c2_default_first_witness :
    ({ handlers := [("a", OHandler.mk 0 "a" "direct" [])],
       default_handler := some "a" } : OutboundManager).default_handler
      = some "a" :=
  (c2_default_first (fun _ => none)
    { tag := "a", protocol := "direct", settings := [] } []
    { handlers := [("a", OHandler.mk 0 "a" "direct" [])],
      default_handler := some "a" } rfl).1

/-! ## Claim C10 -/

/-- C10: `load_handlers` is idempotent on the state produced from
`OutboundManager::new`'s initial state — a second run inserts nothing
and changes neither the handler map nor the default handler — so the
four passes of `OutboundManager::new` yield exactly the single-pass
catalog. -/
theorem c10_load_handlers_idempotent
    (parse : List Nat → Option TrojanOutboundSettings)
    (obs : List Outbound) (st : LoadState)
    (h : load_handlers parse obs initLoadState = .ok st) :
    load_handlers parse obs st = .ok st ∧
    OutboundManager.new parse obs =
      .ok { handlers := st.handlers, default_handler := st.default_handler } := by
  refine ⟨load_handlers_idem h, ?_⟩
  rw [OutboundManager.new_eq_single_pass, h]

/-- C10 witness: one direct and one unknown-protocol outbound. -/
theorem c10_load_handlers_idempotent_witness :
    load_handlers (fun _ => none)
        [{ tag := "a", protocol := "direct", settings := [] },
         { tag := "x", protocol := "foo", settings := [] }]
        { handlers := [("a", OHandler.mk 0 "a" "direct" [])],
          default_handler := some "a", nextId := 1 } =
      .ok { handlers := [("a", OHandler.mk 0 "a" "direct" [])],
            default_handler := some "a", nextId := 1 } :=
  (c10_load_handlers_idempotent (fun _ => none)
    [{ tag := "a", protocol := "direct", settings := [] },
     { tag := "x", protocol := "foo", settings := [] }]
    { handlers := [("a", OHandler.mk 0 "a" "direct" [])],
      default_handler := some "a", nextId := 1 } rfl).1

/-! ## Claim C3 -/

/-- When every settings blob of the remaining inbounds decodes, the
simple-handler loop cannot fail. -/
theorem buildSimpleInbounds_ok {env : InboundParseEnv} :
    ∀ {rest : List Inbound}, (∀ ib ∈ rest, inboundParsesOk env ib = true) →
      ∀ (m : List (String × IHandler)),
        ∃ m', buildSimpleInbounds env rest m = .ok m' := by
  intro rest
  induction rest with
  | nil => intro _ m; exact ⟨m, rfl⟩
  | cons ib rest ih =>
    intro hyp m
    have hib := hyp ib (List.mem_cons_self _ _)
    have hrest := fun i hi => hyp i (List.mem_cons_of_mem _ hi)
    simp only [buildSimpleInbounds]
    by_cases h1 : ib.protocol = "socks"
    · rw [if_pos h1]; exact ih hrest _
    rw [if_neg h1]
    by_cases h2 : ib.protocol = "http"
    · rw [if_pos h2]; exact ih hrest _
    rw [if_neg h2]
    by_cases h3 : ib.protocol = "shadowsocks"
    · rw [if_pos h3]
      simp only [inboundParsesOk, if_pos h3] at hib
      obtain ⟨s, hs⟩ := Option.isSome_iff_exists.mp hib
      rw [hs]
      exact ih hrest _
    rw [if_neg h3]
    by_cases h4 : ib.protocol = "trojan"
    · rw [if_pos h4]
      simp only [inboundParsesOk, if_neg h3, if_pos h4] at hib
      obtain ⟨s, hs⟩ := Option.isSome_iff_exists.mp hib
      rw [hs]
      exact ih hrest _
    rw [if_neg h4]
    by_cases h5 : ib.protocol = "ws"
    · rw [if_pos h5]
      simp only [inboundParsesOk, if_neg h3, if_neg h4, if_pos h5] at hib
      obtain ⟨s, hs⟩ := Option.isSome_iff_exists.mp hib
      rw [hs]
      exact ih hrest _
    rw [if_neg h5]
    by_cases h6 : ib.protocol = "quic"
    · rw [if_pos h6]
      simp only [inboundParsesOk, if_neg h3, if_neg h4, if_neg h5, if_pos h6] at hib
      match hq : env.quic ib.settings with
      | none => rw [hq] at hib; cases hib
      | some s =>
        rw [hq] at hib
        obtain ⟨u, hu⟩ := Option.isSome_iff_exists.mp hib
        simp only [hu]
        exact ih hrest _
    rw [if_neg h6]
    by_cases h7 : ib.protocol = "tls"
    · rw [if_pos h7]
      simp only [inboundParsesOk, if_neg h3, if_neg h4, if_neg h5, if_neg h6,
        if_pos h7] at hib
      match hq : env.tls ib.settings with
      | none => rw [hq] at hib; cases hib
      | some s =>
        rw [hq] at hib
        obtain ⟨u, hu⟩ := Option.isSome_iff_exists.mp hib
        simp only [hu]
        exact ih hrest _
    rw [if_neg h7]
    exact ih hrest _

/-- When every composite settings blob decodes, a composite pass cannot
fail; missing actor tags are silently skipped. -/
theorem buildCompositesPass_ok {env : InboundParseEnv} :
    ∀ {rest : List Inbound}, (∀ ib ∈ rest, inboundParsesOk env ib = true) →
      ∀ (m : List (String × IHandler)),
        ∃ m', buildCompositesPass env rest m = .ok m' := by
  intro rest
  induction rest with
  | nil => intro _ m; exact ⟨m, rfl⟩
  | cons ib rest ih =>
    intro hyp m
    have hib := hyp ib (List.mem_cons_self _ _)
    have hrest := fun i hi => hyp i (List.mem_cons_of_mem _ hi)
    simp only [buildCompositesPass]
    by_cases h1 : ib.protocol = "amux"
    · rw [if_pos h1]
      have : (env.amux ib.settings).isSome = true := by
        simp only [inboundParsesOk, if_pos h1] at hib
        split at hib
        all_goals first | exact hib | simp_all
      obtain ⟨s, hs⟩ := Option.isSome_iff_exists.mp this
      rw [hs]
      exact ih hrest _
    rw [if_neg h1]
    by_cases h2 : ib.protocol = "chain"
    · rw [if_pos h2]
      have : (env.chain ib.settings).isSome = true := by
        simp only [inboundParsesOk, if_pos h2] at hib
        split at hib
        all_goals first | exact hib | simp_all
      obtain ⟨s, hs⟩ := Option.isSome_iff_exists.mp this
      simp only [hs]
      match hca : collectActors m s with
      | [] => simp only [hca]; exact ih hrest _
      | a :: rest2 => simp only [hca]; exact ih hrest _
    rw [if_neg h2]
    exact ih hrest _

/-- The four composite passes cannot fail when composite settings
decode. -/
theorem buildCompositesPasses_ok {env : InboundParseEnv}
    {inbounds : List Inbound}
    (hyp : ∀ ib ∈ inbounds, inboundParsesOk env ib = true) :
    ∀ (n : Nat) (m : List (String × IHandler)),
      ∃ m', buildCompositesPasses env inbounds n m = .ok m' := by
  intro n
  induction n with
  | zero => intro m; exact ⟨m, rfl⟩
  | succ n ihn =>
    intro m
    obtain ⟨m1, h1⟩ := buildCompositesPass_ok hyp m
    obtain ⟨m2, h2⟩ := ihn m1
    exact ⟨m2, by simp only [buildCompositesPasses, h1]; exact h2⟩

/-- The listener loop cannot fail when tun settings decode. -/
theorem buildListeners_ok {env : InboundParseEnv} :
    ∀ {rest : List Inbound}, (∀ ib ∈ rest, inboundParsesOk env ib = true) →
      ∀ (m : List (String × IHandler))
        (ls : List (String × NetworkInboundListener))
        (tun : Option String) (auto : Bool),
        ∃ r, buildListeners env rest m ls tun auto = .ok r := by
  intro rest
  induction rest with
  | nil => intro _ m ls tun auto; exact ⟨(ls, tun, auto), rfl⟩
  | cons ib rest ih =>
    intro hyp m ls tun auto
    have hib := hyp ib (List.mem_cons_self _ _)
    have hrest := fun i hi => hyp i (List.mem_cons_of_mem _ hi)
    simp only [buildListeners]
    by_cases h1 : ib.protocol = "tun"
    · rw [if_pos h1]
      have : (env.tun ib.settings).isSome = true := by
        simp only [inboundParsesOk, if_pos h1] at hib
        split at hib
        all_goals first | exact hib | simp_all
      obtain ⟨s, hs⟩ := Option.isSome_iff_exists.mp this
      rw [hs]
      exact ih hrest _ _ _ _
    rw [if_neg h1]
    by_cases h2 : ib.port ≠ 0
    · rw [if_pos h2]
      match hg : imGet m ib.tag with
      | some hh => exact ih hrest _ _ _ _
      | none => exact ih hrest _ _ _ _
    · rw [if_neg h2]
      exact ih hrest _ _ _ _

/-- C3, counterexample.  A chain inbound whose only actor tag is never
built: `InboundManager::new` returns `Ok` — with the composite simply
absent from the handler map — instead of the configuration-validation
error the claim requires. -/
theorem c3_composite_cex :
    InboundManager.new
      { shadowsocks := fun _ => none, trojan := fun _ => none,
        ws := fun _ => none, quic := fun _ => none, quicNew := fun _ => none,
        tls := fun _ => none, tlsNew := fun _ => none, amux := fun _ => none,
        chain := fun _ => some ["missing"], tun := fun _ => none }
      [{ tag := "c", protocol := "chain", address := "", port := 0, settings := [] }] =
    .ok { handlers := [], network_listeners := [], tun_listener_tag := none,
          tun_auto := false } := rfl

/-- C3 (amended): composite construction iterates exactly four passes;
each pass re-parses and rebuilds every amux and chain inbound from
whatever actors are currently present (an amux is installed with the
present subset, possibly empty; a chain with no present actor is
skipped in that pass), and actor tags that remain unbuilt never make
`InboundManager::new` fail: whenever every settings blob decodes and
the fallible quic/tls constructors succeed, it returns `Ok`. -/
theorem c3_composite_no_validation (env : InboundParseEnv)
    (inbounds : List Inbound)
    (h : inbounds.all (fun ib => inboundParsesOk env ib) = true) :
    exceptIsOk (InboundManager.new env inbounds) = true := by
  have hyp : ∀ ib ∈ inbounds, inboundParsesOk env ib = true := by
    simpa [List.all_eq_true] using h
  obtain ⟨m0, h0⟩ := buildSimpleInbounds_ok hyp []
  obtain ⟨m1, h1⟩ := buildCompositesPasses_ok hyp 4 m0
  obtain ⟨⟨ls, tun, auto⟩, h2⟩ := buildListeners_ok hyp m1 [] none false
  simp only [InboundManager.new, h0, h1, h2, exceptIsOk]

/-- C3 witness: a socks inbound plus a chain over it; all decodes
succeed. -/
theorem c3_composite_no_validation_witness :
    exceptIsOk (InboundManager.new
      { shadowsocks := fun _ => none, trojan := fun _ => none,
        ws := fun _ => none, quic := fun _ => none, quicNew := fun _ => none,
        tls := fun _ => none, tlsNew := fun _ => none, amux := fun _ => none,
        chain := fun _ => some ["s"], tun := fun _ => none }
      [{ tag := "s", protocol := "socks", address := "127.0.0.1", port := 1080,
         settings := [] },
       { tag := "c", protocol := "chain", address := "", port := 0,
         settings := [] }]) = true :=
  c3_composite_no_validation _ _ (by rfl)

/-! ## Registry lemmas -/

theorem imGet_imInsert_self [DecidableEq κ] (m : List (κ × α)) (k : κ) (v : α) :
    imGet (imInsert m k v) k = some v := by
  induction m with
  | nil => simp [imInsert, imGet]
  | cons p rest ih =>
    by_cases hp : p.1 = k
    · simp [imInsert, hp, imGet]
    · simp only [imInsert, if_neg hp, imGet]
      rw [List.find?_cons_of_neg _ (by simpa using hp)]
      simpa [imGet] using ih

theorem imContains_imRemove_self [DecidableEq κ] (m : List (κ × α)) (k : κ) :
    imContains (imRemove m k) k = false := by
  induction m with
  | nil => rfl
  | cons p rest ih =>
    by_cases hp : p.1 = k
    · simpa [imRemove, hp] using ih
    · simpa [imRemove, hp, imContains] using ih

/-! ## Claim C4 -/

/-- C4, counterexample.  With the instance already live (`is_running`
true), a second `start` with a valid configuration does not fail with a
configuration error: it proceeds, overwrites the registry slot with the
new runtime manager, and returns `Ok`. -/
theorem c4_start_cex :
    is_running [(1, 7)] = true ∧
    (startRun [(1, 7)] true true true 42).result = .ok () ∧
    (startRun [(1, 7)] true true true 42).live = some [(1, 42)] :=
  ⟨rfl, rfl, rfl⟩

/-- C4 (amended): `start` performs no liveness check on the registry.
Called while the instance id is live, with all loading succeeding, it
returns `Ok` and for the duration of the run overwrites the registry
entry with the new runtime manager; it produces a configuration error
only when configuration loading or the config-phase constructors fail. -/
theorem c4_start_no_rejection (registry : List (Nat × Nat)) (mgr : Nat)
    (h : is_running registry = true) :
    (startRun registry true true true mgr).result = .ok () ∧
    (startRun registry true true true mgr).live =
      some (imInsert registry INSTANCE_ID mgr) ∧
    imGet (imInsert registry INSTANCE_ID mgr) INSTANCE_ID = some mgr ∧
    (∀ cOk rOk bOk : Bool,
      (startRun registry cOk rOk bOk mgr).result = .error .config →
        cOk = false ∨ bOk = false) := by
  refine ⟨rfl, rfl, imGet_imInsert_self _ _ _, ?_⟩
  intro cOk rOk bOk hres
  cases cOk <;> cases rOk <;> cases bOk <;> simp_all [startRun]

/-- C4 witness: registry live with manager 7, restart with manager 42. -/
theorem c4_start_no_rejection_witness :
    (startRun [(1, 7)] true true true 42).result = .ok () :=
  (c4_start_no_rejection [(1, 7)] 42 rfl).1

/-! ## Claim C7 -/

/-- C7: whenever a `start` run returns `Ok` (equivalently, after the
shutdown that ended its blocking phase completed), the registry no
longer contains the instance id, so `is_running()` is false; while the
run was live, the registry mapped the instance id to this run's runtime
manager. -/
theorem c7_registry_lifecycle (registry : List (Nat × Nat))
    (cOk rOk bOk : Bool) (mgr : Nat)
    (h : (startRun registry cOk rOk bOk mgr).result = .ok ()) :
    is_running (startRun registry cOk rOk bOk mgr).registryFinal = false ∧
    (startRun registry cOk rOk bOk mgr).live =
      some (imInsert registry INSTANCE_ID mgr) ∧
    imGet (imInsert registry INSTANCE_ID mgr) INSTANCE_ID = some mgr := by
  cases cOk <;> cases rOk <;> cases bOk <;> simp_all [startRun]
  exact ⟨imContains_imRemove_self _ _, imGet_imInsert_self _ _ _⟩

/-- C7 witness: a run from an empty registry. -/
theorem c7_registry_lifecycle_witness :
    is_running (startRun [] true true true 5).registryFinal = false :=
  (c7_registry_lifecycle [] true true true 5 rfl).1

/-! ## Claim C5 -/

/-- C5: under `-T` the binary prints `ok` and exits 0 exactly when every
router-rule target resolves; otherwise it prints a single error line
naming the first unresolved target and exits 1 — in particular a rule
referencing an undefined outbound tag fails with exit code 1. -/
theorem c5_test_mode (c : ConfigTree) :
    (allRuleTargetsResolve c = true → runTestMode c = (["ok"], 0)) ∧
    (allRuleTargetsResolve c = false →
      ∃ t, firstUnresolvedTarget c = some t ∧
        runTestMode c =
          (["rule target [" ++ t ++ "] not found among outbounds"], 1)) := by
  match hf : firstUnresolvedTarget c with
  | none =>
    have hall : allRuleTargetsResolve c = true := by
      rw [allRuleTargetsResolve, List.all_eq_true]
      intro t ht
      have := List.find?_eq_none.mp hf t ht
      simpa using this
    refine ⟨fun _ => ?_, fun hfalse => absurd hall (by simp [hfalse])⟩
    simp [runTestMode, test_config, from_file, hf]
  | some t =>
    have hmem := List.mem_of_find?_eq_some hf
    have hprop := List.find?_some hf
    have hnot : targetResolves c t = false := by
      simpa using hprop
    have hall : allRuleTargetsResolve c = false := by
      rw [allRuleTargetsResolve]
      simp only [List.all_eq_false]
      exact ⟨t, hmem, by simp [hnot]⟩
    refine ⟨fun htrue => absurd htrue (by simp [hall]), fun _ => ⟨t, rfl, ?_⟩⟩
    simp [runTestMode, test_config, from_file, hf]

/-- C5 witness: a config whose only rule targets the undefined tag
`"proxy"`. -/
theorem c5_test_mode_witness :
    runTestMode { outboundTags := ["direct"], ruleTargets := ["proxy"] } =
      (["rule target [proxy] not found among outbounds"], 1) := by
  obtain ⟨t, ht, hrun⟩ :=
    (c5_test_mode { outboundTags := ["direct"], ruleTargets := ["proxy"] }).2 rfl
  have : t = "proxy" := by
    have : some t = some "proxy" := by rw [← ht]; rfl
    exact Option.some.inj this
  rw [hrun, this]
  rfl

/-! ## Claim C6 -/

/-- C6: under `-t <tag>` the per-probe timeout handed to the prober is
the `-d` value in seconds (default 4); on probe completion the binary
prints one line per direction — `TCP ok in Nms` / `UDP ok in Nms` on
success, a failure reason otherwise — and exits 0; on a fatal prober
error it prints the error and exits 1. -/
theorem c6_test_outbound_mode (t : Nat)
    (probe : Option Nat → Except String (Except String Nat × Except String Nat)) :
    (∀ e, probe (some t) = .error e →
      runTestOutboundMode t probe = (["test outbound failed: " ++ e], 1)) ∧
    (∀ tcpRes udpRes, probe (some t) = .ok (tcpRes, udpRes) →
      runTestOutboundMode t probe =
        ([formatProbeLine "TCP" tcpRes, formatProbeLine "UDP" udpRes], 0)) ∧
    (∀ millis, formatProbeLine "TCP" (.ok millis) =
      "TCP ok in " ++ toString millis ++ "ms") ∧
    (∀ millis, formatProbeLine "UDP" (.ok millis) =
      "UDP ok in " ++ toString millis ++ "ms") ∧
    (Args.parsedDefaults true).test_outbound_timeout = 4 ∧
    (Args.parsedDefaults false).test_outbound_timeout = 4 := by
  refine ⟨?_, ?_, fun _ => rfl, fun _ => rfl, rfl, rfl⟩
  · intro e he
    simp [runTestOutboundMode, he]
  · intro tcpRes udpRes hok
    simp [runTestOutboundMode, hok]

/-- C6 witness: a probe succeeding on TCP in 12 ms and timing out on
UDP. -/
theorem c6_test_outbound_mode_witness :
    runTestOutboundMode 4 (fun _ => .ok (.ok 12, .error "timeout")) =
      (["TCP ok in 12ms", "UDP failed: timeout"], 0) :=
  (c6_test_outbound_mode 4 (fun _ => .ok (.ok 12, .error "timeout"))).2.1
    (.ok 12) (.error "timeout") rfl

/-! ## Claim C8 -/

/-- C8, counterexample.  Two argument records differing only in
`thread_stack_size` lead to identical invocations of `start` (only the
config path is forwarded), and `new_runtime` sets no thread stack size
on the builder: the option's value does not configure the runtime's
worker threads. -/
theorem c8_stack_size_cex :
    run_with_options_call
        { config := "config.conf", single_thread := false,
          thread_stack_size := 262144, test := false, test_outbound := none,
          test_outbound_timeout := 4, boundif := none, version := false } =
      run_with_options_call
        { config := "config.conf", single_thread := false,
          thread_stack_size := 999999, test := false, test_outbound := none,
          test_outbound_timeout := 4, boundif := none, version := false } ∧
    new_runtime_builder.thread_stack_size = none :=
  ⟨rfl, rfl⟩

/-- C8 (amended): the `--thread-stack-size` default is 256 KiB in
release builds and 2 MiB in debug builds, but the parsed value is
ignored: `main` forwards only the config path and `new_runtime` builds
the runtime without setting any thread stack size. -/
theorem c8_stack_size_default_unused (dbg : Bool) (a : Args) (n : Nat) :
    default_thread_stack_size dbg = (if dbg then 2097152 else 262144) ∧
    (Args.parsedDefaults dbg).thread_stack_size = default_thread_stack_size dbg ∧
    run_with_options_call { a with thread_stack_size := n } =
      run_with_options_call a ∧
    new_runtime_builder.thread_stack_size = none := by
  refine ⟨by cases dbg <;> rfl, rfl, rfl, rfl⟩

/-! ## Claim C9 -/

/-- C9: the Trojan outbound TLS client configuration is independent of
the outbound settings — `make_config` returns the same `ClientConfig`
for any two settings values: a root store holding exactly the bundled
webpki trust anchors, safe defaults, and no client authentication. -/
theorem c9_make_config_constant (anchors : List TrustAnchor)
    (s1 s2 : TrojanOutboundSettings) :
    make_config anchors s1 = make_config anchors s2 ∧
    (make_config anchors s1).root_store = anchors.map (fun ta =>
      OwnedTrustAnchor.from_subject_spki_name_constraints
        ta.subject ta.spki ta.name_constraints) ∧
    (make_config anchors s1).safe_defaults = true ∧
    (make_config anchors s1).no_client_auth = true :=
  ⟨rfl, rfl, rfl, rfl⟩
